import Mathlib

/-
Verification of the analytics pipeline of the inmobiliaria backend
(data_service.py and handler.py).

Modelling conventions for the shallow embedding:

* Python/pandas floats are modelled as exact rationals (the spec states that
  decimal-to-float conversion is lossless for all magnitudes the domain
  produces, and no claim depends on rounding).
* A float NaN is modelled as `Option.none` at the places where NaN can flow
  (`Option ℚ` for a numeric cell after coercion).
* A cell of an object column of the DataFrame is `Option PyVal`, where the
  outer `none` means the column itself is absent from the frame.  Following
  `pd.DataFrame(items)`, a column exists iff at least one item carries the
  corresponding key, and items lacking the key get a NaN fill in an existing
  column.  `row['c']` on a missing column raises KeyError; `row.get('c')`
  yields Python `None` (falsy); `row.get('c', d)` yields the default `d`.
* Python exceptions (KeyError, ValueError, TypeError, ZeroDivisionError) are
  modelled with `Except PyErr`.  The top-level handler maps every raised
  exception to the same 500 error payload, so the claims are insensitive to
  which member of a set of simultaneous errors is surfaced; the embedding
  processes rows row by row, whereas pandas `apply` runs column by column,
  which can only change *which* error is raised when several independent
  errors exist, never the value produced on success.
* A string-encoded field is abstracted by the rational it parses to
  (`PyVal.pstr (some q) e`) or by a parse failure (`PyVal.pstr none e`),
  together with its Python truthiness (`e` records whether the string is
  empty; `float(s)` and `pd.to_numeric(s)` accept the same numeric literals).
* `sort_values` in pandas uses quicksort, whose order among tied keys is
  implementation-defined; the embedding uses a stable insertion sort.  No
  theorem below about `sort_values` output depends on the order of ties
  (the one claim that does, C6, is left unresolved for exactly this reason).
  `Counter.most_common` is documented to order equal counts in
  first-encountered order, which the stable model captures faithfully.
-/

/-- Python exceptions that the pipeline can raise; the handler's top level
`except` turns any of them into the 500 error payload. -/
inductive PyErr where
  | keyError
  | valueError
  | typeError
  | zeroDivisionError
deriving DecidableEq, Repr

/-- A value stored in an object cell of the DataFrame: NaN, a finite number
(int / float / DynamoDB Decimal), or a string abstracted by its numeric parse
result and emptiness. -/
inductive PyVal where
  | nan
  | num (q : ℚ)
  | pstr (parsed : Option ℚ) (isEmpty : Bool)
deriving DecidableEq, Repr

/-- The `facilities` field of a raw item: either a Python list of facility
ids (already rendered through `str`, as `_map_facilities` compares
`str(fid)` against `str(opt['id'])`), or some non-list value. -/
inductive FacVal where
  | flist (ids : List String)
  | nonlist
deriving DecidableEq, Repr

/-- A raw DynamoDB item.  `id` is the table key and is always present; every
other field is optional (`none` = the key is absent from the item dict). -/
structure RawItem where
  id : ℚ
  price : Option PyVal
  currency_id : Option PyVal
  m2 : Option PyVal
  neighborhood : Option String
  property_type_id : Option PyVal
  facilities : Option FacVal
  bedrooms : Option PyVal
  bathrooms : Option PyVal
deriving DecidableEq, Repr

/-- One entry of the `'Filter:price'` options list of the metadata file;
both fields are optional dict keys. -/
structure CurrencyOption where
  iso_code : Option String
  arbitraje : Option ℚ
deriving DecidableEq, Repr

/-- The metadata catalog: the raw currency options list, and the two derived
lookup mappings (property-type id to name, facility id rendered through
`str` to name). -/
structure Catalog where
  priceOptions : List CurrencyOption
  typeMapping : List (ℚ × String)
  facMapping : List (String × String)
deriving DecidableEq, Repr

/-- `DynamoDBService._get_pen_to_usd_rate`: the `arbitraje` of the first
option whose `iso_code` is `'PEN'`, with default 3.7 both when no such
option exists and when the matching option lacks the `arbitraje` key. -/
def getPenToUsdRate : List CurrencyOption → ℚ
  | [] => 3.7
  | c :: rest =>
      if c.iso_code = some "PEN" then c.arbitraje.getD 3.7 else getPenToUsdRate rest

/-- Which columns exist in `pd.DataFrame(items)`: a column exists iff some
item carries the key. -/
structure Cols where
  price : Bool
  currency_id : Bool
  m2 : Bool
  neighborhood : Bool
  property_type_id : Bool
  facilities : Bool
  bedrooms : Bool
  bathrooms : Bool
deriving DecidableEq, Repr

def colsOf (items : List RawItem) : Cols :=
  ⟨items.any (·.price.isSome), items.any (·.currency_id.isSome),
   items.any (·.m2.isSome), items.any (·.neighborhood.isSome),
   items.any (·.property_type_id.isSome), items.any (·.facilities.isSome),
   items.any (·.bedrooms.isSome), items.any (·.bathrooms.isSome)⟩

/-- The cell a row holds for a field: `none` when the column is absent from
the frame, otherwise the item's value with NaN fill. -/
def cellOf (hasCol : Bool) (v : Option PyVal) : Option PyVal :=
  if hasCol then some (v.getD .nan) else none

/-- Python `float(v)` on a cell value: NaN stays NaN (`none`), numbers pass
through, strings parse or raise ValueError. -/
def pyFloat : PyVal → Except PyErr (Option ℚ)
  | .nan => .ok none
  | .num q => .ok (some q)
  | .pstr p _ => match p with
      | some q => .ok (some q)
      | none => .error .valueError

/-- Python truthiness of `row.get(c)`: `None` and `0` and the empty string
are falsy; NaN and every other value is truthy. -/
def truthy : Option PyVal → Bool
  | none => false
  | some .nan => true
  | some (.num q) => decide (q ≠ 0)
  | some (.pstr _ e) => !e

/-- data_service.py line 78-81: `price_usd` of one row.
`float(row['price']) / rate` when `row.get('currency_id') == 6`,
otherwise `float(row.get('price', 0))`. -/
def computePriceUsd (cols : Cols) (rate : ℚ) (it : RawItem) : Except PyErr (Option ℚ) :=
  if cellOf cols.currency_id it.currency_id = some (.num 6) then
    match cellOf cols.price it.price with
    | none => .error .keyError
    | some v =>
        match pyFloat v with
        | .error e => .error e
        | .ok p =>
            if rate = 0 then .error .zeroDivisionError
            else .ok (p.map (· / rate))
  else
    match cellOf cols.price it.price with
    | none => .ok (some 0)
    | some v => pyFloat v

/-- data_service.py line 82-85: the service-side `price_per_m2_usd` of one
row: `price_usd / float(m2)` when `row.get('m2')` is truthy and
`float(row['m2']) > 0`, else `0`.  (The handler later recomputes this
column, but evaluating it can still raise on an unparseable `m2`.) -/
def computePpm2Ds (cols : Cols) (priceUsd : Option ℚ) (it : RawItem) :
    Except PyErr (Option ℚ) :=
  match cellOf cols.m2 it.m2 with
  | none => .ok (some 0)
  | some v =>
      if truthy (some v) then
        match pyFloat v with
        | .error e => .error e
        | .ok none => .ok (some 0)
        | .ok (some q) => if 0 < q then .ok (priceUsd.map (· / q)) else .ok (some 0)
      else .ok (some 0)

/-- data_service.py line 44-51 applied at line 86: map `property_type_id`
through the type mapping, `fillna('No especificado')`.  Raises KeyError when
the `property_type_id` column is absent.  A dict lookup misses on NaN and on
string-typed ids (string keys never equal the int keys of the mapping). -/
def computePtypeName (cols : Cols) (tm : List (ℚ × String)) (it : RawItem) :
    Except PyErr String :=
  if cols.property_type_id then
    match cellOf true it.property_type_id with
    | some (.num q) => .ok (((tm.find? (fun p => p.1 = q)).map (·.2)).getD "No especificado")
    | _ => .ok "No especificado"
  else .error .keyError

/-- data_service.py line 53-61: `_map_facilities` on one cell: non-list
values (including the NaN fill) give `[]`; a list maps each id through the
facilities mapping with fallback `'Desconocido'`. -/
def mapFacilities (fm : List (String × String)) : Option FacVal → List String
  | some (.flist ids) =>
      ids.map (fun fid => (((fm.find? (fun p => p.1 = fid)).map (·.2)).getD "Desconocido"))
  | _ => []

/-- data_service.py line 87: `df['facilities'].apply(_map_facilities)`;
raises KeyError when the `facilities` column is absent. -/
def computeFacNames (cols : Cols) (fm : List (String × String)) (it : RawItem) :
    Except PyErr (List String) :=
  if cols.facilities then .ok (mapFacilities fm it.facilities) else .error .keyError

/-- One row of the DataFrame returned by `get_processed_properties`. -/
structure ERow where
  id : ℚ
  price_usd : Option ℚ
  price_per_m2_usd_ds : Option ℚ
  m2 : Option PyVal
  neighborhood : Option String
  property_type_name : String
  facilities_names : List String
  bedrooms : Option PyVal
  bathrooms : Option PyVal
deriving DecidableEq, Repr

/-- The full enrichment of one raw item (data_service.py line 78-87). -/
def enrichItem (cols : Cols) (cat : Catalog) (rate : ℚ) (it : RawItem) :
    Except PyErr ERow :=
  match computePriceUsd cols rate it with
  | .error e => .error e
  | .ok pu =>
      match computePpm2Ds cols pu it with
      | .error e => .error e
      | .ok pp =>
          match computePtypeName cols cat.typeMapping it with
          | .error e => .error e
          | .ok ptn =>
              match computeFacNames cols cat.facMapping it with
              | .error e => .error e
              | .ok fn =>
                  .ok ⟨it.id, pu, pp, it.m2, it.neighborhood, ptn, fn,
                       it.bedrooms, it.bathrooms⟩

/-- Effectful map over a list in the `Except` monad, first error wins. -/
def exMapM (f : α → Except PyErr β) : List α → Except PyErr (List β)
  | [] => .ok []
  | a :: l =>
      match f a with
      | .error e => .error e
      | .ok b =>
          match exMapM f l with
          | .error e => .error e
          | .ok bs => .ok (b :: bs)

/-- `DynamoDBService.get_processed_properties` on a non-empty item list:
enrich every row.  (On an empty item list the service returns an empty
frame and the handler answers before any of this runs.) -/
def processedRows (cat : Catalog) (items : List RawItem) : Except PyErr (List ERow) :=
  exMapM (enrichItem (colsOf items) cat (getPenToUsdRate cat.priceOptions)) items

/-- `pd.to_numeric(cell, errors='coerce')` on an object cell of an existing
column: NaN and unparseable strings coerce to NaN (`none`). -/
def toNumeric : Option PyVal → Option ℚ
  | none => none
  | some .nan => none
  | some (.num q) => some q
  | some (.pstr p _) => p

/-- A row after handler.py line 47-57: numeric `m2` and `price_usd`
(rows with NaN in either were dropped), and the recomputed
`price_per_m2_usd` with `m2 = 0` and non-finite results normalized to 0. -/
structure Row where
  id : ℚ
  m2 : ℚ
  price_usd : ℚ
  price_per_m2_usd : ℚ
  neighborhood : Option String
  property_type_name : String
  facilities_names : List String
  bedrooms : Option PyVal
  bathrooms : Option PyVal
deriving DecidableEq, Repr

/-- handler.py line 47-57 for one enriched row: coerce `m2`, drop the row if
`m2` or `price_usd` is NaN, and recompute
`price_per_m2_usd = price_usd / m2` with `m2` zero replaced by NaN before
the division and inf/NaN replaced by 0 after it.  With both operands finite
and `m2` nonzero the quotient is finite, so the normalization reduces to the
`m2 = 0` case. -/
def recomputeRow (e : ERow) : Option Row :=
  match toNumeric e.m2, e.price_usd with
  | some m2q, some pu =>
      some ⟨e.id, m2q, pu, if m2q = 0 then 0 else pu / m2q,
            e.neighborhood, e.property_type_name, e.facilities_names,
            e.bedrooms, e.bathrooms⟩
  | _, _ => none

/-- handler.py line 35-57: enrichment followed by the coercion block.
Line 47 indexes the `m2` column and raises KeyError when it is absent. -/
def recomputedRows (cat : Catalog) (items : List RawItem) : Except PyErr (List Row) :=
  match processedRows cat items with
  | .error e => .error e
  | .ok es =>
      if (colsOf items).m2 then .ok (es.filterMap recomputeRow) else .error .keyError

/-- handler.py line 59-70: the outlier filter predicate. -/
def passesFilter (r : Row) : Bool :=
  decide (15 ≤ r.m2) && decide (50 ≤ r.price_per_m2_usd) &&
    decide (r.price_per_m2_usd ≤ 15000)

/-- handler.py line 66-70: the filtered record set. -/
def filteredRows (cat : Catalog) (items : List RawItem) : Except PyErr (List Row) :=
  match recomputedRows cat items with
  | .error e => .error e
  | .ok rows => .ok (rows.filter passesFilter)

/-- A pandas mean with the handler's NaN guard: the mean of an empty column
is NaN, which `pd.isna` then maps to 0. -/
def mean0 (l : List ℚ) : ℚ :=
  if l = [] then 0 else l.sum / l.length

/-- Distinct group keys in ascending order (`groupby` sorts keys). -/
def sortedKeysStr (l : List String) : List String :=
  List.insertionSort (fun a b => ¬ b < a) l.dedup

/-- Distinct rational group keys in ascending order. -/
def sortedKeysQ (l : List ℚ) : List ℚ :=
  List.insertionSort (fun a b => a ≤ b) l.dedup

/-- The neighborhood group keys of the filtered set; `groupby` drops rows
whose key is NaN. -/
def neighborhoods (rows : List Row) : List String :=
  sortedKeysStr (rows.filterMap (·.neighborhood))

/-- The `price_per_m2_usd` values of one neighborhood group. -/
def groupPpm2 (rows : List Row) (k : String) : List ℚ :=
  (rows.filter (fun r => r.neighborhood = some k)).map (·.price_per_m2_usd)

/-- handler.py line 90: mean `price_per_m2_usd` per neighborhood, sorted
descending by mean (stable model of `sort_values(ascending=False)`). -/
def districtRanking (rows : List Row) : List (String × ℚ) :=
  List.insertionSort (fun a b => b.2 ≤ a.2)
    ((neighborhoods rows).map (fun k => (k, mean0 (groupPpm2 rows k))))

/-- handler.py line 91: `head(5)` of the ranking. -/
def topExpensive (rows : List Row) : List (String × ℚ) :=
  (districtRanking rows).take 5

/-- handler.py line 92: `tail(5)` of the ranking re-sorted ascending. -/
def topAffordable (rows : List Row) : List (String × ℚ) :=
  List.insertionSort (fun a b => a.2 ≤ b.2)
    ((districtRanking rows).drop ((districtRanking rows).length - 5))

/-- One record of the property-type breakdown. -/
structure PtRow where
  property_type_name : String
  count : Nat
  avg_price_usd : ℚ
  avg_m2 : ℚ
  avg_price_per_m2_usd : ℚ
deriving DecidableEq, Repr

/-- The rows of one property-type group. -/
def ptGroup (rows : List Row) (k : String) : List Row :=
  rows.filter (fun r => r.property_type_name = k)

/-- The aggregate record of one property-type group.  `count=('id','count')`
counts non-null ids, and the id column (the table key) is always present,
so the count is the group size. -/
def ptRowOf (rows : List Row) (k : String) : PtRow :=
  ⟨k, (ptGroup rows k).length,
   mean0 ((ptGroup rows k).map (·.price_usd)),
   mean0 ((ptGroup rows k).map (·.m2)),
   mean0 ((ptGroup rows k).map (·.price_per_m2_usd))⟩

/-- handler.py line 95-103: group by `property_type_name`, aggregate, sort
descending by count (stable model of `sort_values`; the `fillna(0)` is a
no-op since every group is non-empty). -/
def propTypeAnalysis (rows : List Row) : List PtRow :=
  List.insertionSort (fun a b => b.count ≤ a.count)
    ((sortedKeysStr (rows.map (·.property_type_name))).map (ptRowOf rows))

/-- handler.py line 106: the flattened facility-name multiset. -/
def allFacilities (rows : List Row) : List String :=
  (rows.map (·.facilities_names)).flatten

/-- One `Counter` update: increment an existing entry in place, or append a
new entry with count 1 (dict insertion order). -/
def bump (acc : List (String × Nat)) (s : String) : List (String × Nat) :=
  if acc.any (fun p => p.1 = s) then
    acc.map (fun p => if p.1 = s then (p.1, p.2 + 1) else p)
  else acc ++ [(s, 1)]

/-- `collections.Counter(l)` as an association list in first-encounter
order. -/
def counterOf (l : List String) : List (String × Nat) :=
  l.foldl bump []

/-- `Counter.most_common(n)`: the first `n` entries of the counter sorted
descending by count; `heapq.nlargest` is documented as equivalent to a
stable reverse-sorted prefix, so ties keep first-encounter order. -/
def mostCommon (n : Nat) (l : List String) : List (String × Nat) :=
  (List.insertionSort (fun a b => b.2 ≤ a.2) (counterOf l)).take n

/-- handler.py line 106-107: the facilities analysis of the filtered set. -/
def facilitiesAnalysis (rows : List Row) : List (String × Nat) :=
  mostCommon 10 (allFacilities rows)

/-- The boolean mask cell `cell > 0` of handler.py line 110-111: NaN
compares false, numbers compare normally, strings raise TypeError. -/
def cellPos : PyVal → Except PyErr Bool
  | .nan => .ok false
  | .num q => .ok (decide (0 < q))
  | .pstr _ _ => .error .typeError

/-- The numeric group key of a bedrooms/bathrooms cell. -/
def corrKey : Option PyVal → Option ℚ
  | some (.num q) => some q
  | _ => none

/-- handler.py line 110-111: restrict to rows whose cell compares `> 0`
(evaluating the mask on every filtered row), group by the cell value in
ascending key order, and take the mean `price_usd` per group.  Raises
KeyError when the column is absent from the frame. -/
def corrGroups (cellf : Row → Option PyVal) (pos : List Row) : List (ℚ × ℚ) :=
  (sortedKeysQ (pos.filterMap (fun r => corrKey (cellf r)))).map (fun k =>
    (k, mean0 ((pos.filter (fun r => corrKey (cellf r) = some k)).map (·.price_usd))))

/-- handler.py line 110-111 (continued): the full correlation computation. -/
def corrBy (cellf : Row → Option PyVal) (hasCol : Bool) (rows : List Row) :
    Except PyErr (List (ℚ × ℚ)) :=
  if hasCol then
    match exMapM (fun r => (cellPos ((cellf r).getD .nan)).map (fun b => (r, b))) rows with
    | .error e => .error e
    | .ok flags => .ok (corrGroups cellf ((flags.filter (·.2)).map (·.1)))
  else .error .keyError

/-- The assembled report body (handler.py line 113-131).  Finite rationals
throughout: the NaN guards of line 85-87 are folded into `mean0`. -/
structure Report where
  total_properties : Nat
  average_price_usd : ℚ
  average_m2 : ℚ
  average_price_per_m2_usd : ℚ
  top_expensive_by_m2 : List (String × ℚ)
  top_affordable_by_m2 : List (String × ℚ)
  property_type_analysis : List PtRow
  facilities_analysis : List (String × Nat)
  by_bedrooms : List (ℚ × ℚ)
  by_bathrooms : List (ℚ × ℚ)
deriving DecidableEq, Repr

/-- The two successful response shapes of the handler: the distinguished
"no data" message of line 37-42, or the report of line 113-141. -/
inductive Output where
  | noData
  | report (r : Report)
deriving DecidableEq, Repr

/-- handler.py line 80-131 on the filtered set: general metrics, district
rankings (line 90 indexes the `neighborhood` column and raises KeyError when
it is absent), property-type breakdown, facilities analysis, and the
bedroom/bathroom correlations. -/
def aggregateStage (hasNb hasBed hasBath : Bool) (rows : List Row) :
    Except PyErr Report :=
  if hasNb then
    match corrBy (·.bedrooms) hasBed rows with
    | .error e => .error e
    | .ok bb =>
        match corrBy (·.bathrooms) hasBath rows with
        | .error e => .error e
        | .ok bt =>
            .ok ⟨rows.length,
                 mean0 (rows.map (·.price_usd)),
                 mean0 (rows.map (·.m2)),
                 mean0 (rows.map (·.price_per_m2_usd)),
                 topExpensive rows, topAffordable rows,
                 propTypeAnalysis rows, facilitiesAnalysis rows, bb, bt⟩
  else .error .keyError

/-- handler.py `get_dashboard_metrics`: the whole pipeline.  `Except.error`
models the top-level `except` branch (the 500 error payload). -/
def get_dashboard_metrics (cat : Catalog) (items : List RawItem) :
    Except PyErr Output :=
  if items = [] then .ok .noData
  else
    match filteredRows cat items with
    | .error e => .error e
    | .ok rows =>
        match aggregateStage (colsOf items).neighborhood (colsOf items).bedrooms
            (colsOf items).bathrooms rows with
        | .error e => .error e
        | .ok rep => .ok (.report rep)

/-- The report produced for an empty filtered set: zero totals and averages,
every breakdown empty. -/
def emptyRep : Report := ⟨0, 0, 0, 0, [], [], [], [], [], []⟩

/-- Whether a pipeline outcome is the 500 error payload. -/
def isErr : Except PyErr Output → Bool
  | .error _ => true
  | .ok _ => false

/-
Helper lemmas about the embedding.
-/

instance exceptDecEq {ε α : Type _} [DecidableEq ε] [DecidableEq α] :
    DecidableEq (Except ε α)
  | .error e1, .error e2 =>
      if h : e1 = e2 then isTrue (by rw [h])
      else isFalse (by intro hc; cases hc; exact h rfl)
  | .error _, .ok _ => isFalse (by intro hc; cases hc)
  | .ok _, .error _ => isFalse (by intro hc; cases hc)
  | .ok a1, .ok a2 =>
      if h : a1 = a2 then isTrue (by rw [h])
      else isFalse (by intro hc; cases hc; exact h rfl)

theorem exMapM_ok_mem {f : α → Except PyErr β} :
    ∀ {l : List α} {bs : List β}, exMapM f l = .ok bs → ∀ b ∈ bs, ∃ a ∈ l, f a = .ok b := by
  intro l
  induction l with
  | nil =>
      intro bs h b hb
      simp only [exMapM, Except.ok.injEq] at h
      subst h
      simp at hb
  | cons a t ih =>
      intro bs h b hb
      rw [exMapM] at h
      cases hfa : f a with
      | error e => rw [hfa] at h; cases h
      | ok b0 =>
          rw [hfa] at h
          cases hft : exMapM f t with
          | error e => rw [hft] at h; cases h
          | ok bs0 =>
              rw [hft] at h
              simp only [Except.ok.injEq] at h
              subst h
              rcases List.mem_cons.mp hb with hb | hb
              · exact ⟨a, List.mem_cons_self a t, hb ▸ hfa⟩
              · rcases ih hft b hb with ⟨a', ha', hfa'⟩
                exact ⟨a', List.mem_cons_of_mem a ha', hfa'⟩

theorem exMapM_append {f : α → Except PyErr β} : ∀ (l₁ l₂ : List α),
    exMapM f (l₁ ++ l₂) =
      match exMapM f l₁ with
      | .error e => .error e
      | .ok bs₁ =>
          match exMapM f l₂ with
          | .error e => .error e
          | .ok bs₂ => .ok (bs₁ ++ bs₂) := by
  intro l₁ l₂
  induction l₁ with
  | nil =>
      simp only [List.nil_append, exMapM]
      cases exMapM f l₂ <;> rfl
  | cons a t ih =>
      show exMapM f (a :: (t ++ l₂)) = _
      rw [exMapM, exMapM, ih]
      cases f a with
      | error e => rfl
      | ok b =>
          cases exMapM f t with
          | error e => rfl
          | ok bs₁ =>
              cases exMapM f l₂ with
              | error e => rfl
              | ok bs₂ => rfl

/-- Inversion of a successful `enrichItem`: the fields of the produced row. -/
theorem enrichItem_ok {cols : Cols} {cat : Catalog} {rate : ℚ} {it : RawItem} {e : ERow}
    (h : enrichItem cols cat rate it = .ok e) :
    computePriceUsd cols rate it = .ok e.price_usd ∧
    e.m2 = it.m2 ∧ e.id = it.id ∧ e.neighborhood = it.neighborhood ∧
    e.bedrooms = it.bedrooms ∧ e.bathrooms = it.bathrooms ∧
    computeFacNames cols cat.facMapping it = .ok e.facilities_names := by
  cases h1 : computePriceUsd cols rate it with
  | error e1 => rw [enrichItem, h1] at h; cases h
  | ok pu =>
      cases h2 : computePpm2Ds cols pu it with
      | error e2 => rw [enrichItem, h1] at h; simp only [h2] at h; cases h
      | ok pp =>
          cases h3 : computePtypeName cols cat.typeMapping it with
          | error e3 => rw [enrichItem, h1] at h; simp only [h2, h3] at h; cases h
          | ok ptn =>
              cases h4 : computeFacNames cols cat.facMapping it with
              | error e4 => rw [enrichItem, h1] at h; simp only [h2, h3, h4] at h; cases h
              | ok fn =>
                  rw [enrichItem, h1] at h
                  simp only [h2, h3, h4, Except.ok.injEq] at h
                  subst h
                  exact ⟨rfl, rfl, rfl, rfl, rfl, rfl, rfl⟩

/-- Inversion of a successful `recomputedRows`. -/
theorem recomputedRows_ok {cat : Catalog} {items : List RawItem} {rows : List Row}
    (h : recomputedRows cat items = .ok rows) :
    ∃ es, processedRows cat items = .ok es ∧ (colsOf items).m2 = true ∧
      rows = es.filterMap recomputeRow := by
  cases h1 : processedRows cat items with
  | error e1 => rw [recomputedRows, h1] at h; cases h
  | ok es =>
      rw [recomputedRows, h1] at h
      cases hm : (colsOf items).m2 with
      | true =>
          rw [hm] at h
          simp only [eq_self_iff_true, if_true, Except.ok.injEq] at h
          exact ⟨es, rfl, rfl, h.symm⟩
      | false =>
          rw [hm] at h
          simp at h

/-
Concrete fixtures used by witnesses and counterexamples.
-/

/-- A catalog mirroring the metadata file: PEN at 3.7, two property types,
two facilities. -/
def catW : Catalog :=
  ⟨[⟨some "PEN", some (37/10)⟩], [(1, "Departamento"), (2, "Casa")],
   [("1", "Piscina"), ("2", "Gimnasio")]⟩

/-- A USD-priced record that passes the outlier filter (ppm2 = 2000). -/
def itemFull : RawItem :=
  ⟨2, some (.num 100000), some (.num 1), some (.num 50), some "B", some (.num 2),
   some (.flist []), some (.num 3), some (.num 2)⟩

/-- The recomputed row of `itemFull`. -/
def rowFull : Row :=
  ⟨2, 50, 100000, 2000, some "B", "Casa", [], some (.num 3), some (.num 2)⟩

/-- A record whose price-per-m2 (5) fails the outlier filter. -/
def itemLowPpm2 : RawItem :=
  ⟨1, some (.num 100), some (.num 1), some (.num 20), some "A", some (.num 1),
   some (.flist []), some (.num 2), some (.num 1)⟩

/-- The recomputed row of `itemLowPpm2`. -/
def rowLow : Row :=
  ⟨1, 20, 100, 5, some "A", "Departamento", [], some (.num 2), some (.num 1)⟩

/-- The filtered record set of `[itemLowPpm2]` is empty. -/
theorem filteredRows_itemLow : filteredRows catW [itemLowPpm2] = .ok [] := by
  have h1 : recomputedRows catW [itemLowPpm2] = .ok [rowLow] := by
    norm_num [recomputedRows, processedRows, exMapM, enrichItem, computePriceUsd,
      computePpm2Ds, computePtypeName, computeFacNames, cellOf, pyFloat, truthy,
      colsOf, getPenToUsdRate, catW, itemLowPpm2, recomputeRow, toNumeric, rowLow,
      mapFacilities, List.filterMap_cons, List.filterMap_nil]
  rw [filteredRows, h1]; decide

/-- C3: the outlier filter keeps exactly the records with `m2 >= 15` and
`50 <= pricePerM2Usd <= 15000`, all bounds conjunctive and inclusive. -/
theorem C3_filter_exact (cat : Catalog) (items : List RawItem) (rows fr : List Row)
    (hrec : recomputedRows cat items = .ok rows)
    (hfil : filteredRows cat items = .ok fr) :
    ∀ r : Row, r ∈ fr ↔ (r ∈ rows ∧ 15 ≤ r.m2 ∧ 50 ≤ r.price_per_m2_usd ∧
      r.price_per_m2_usd ≤ 15000) := by
  intro r
  rw [filteredRows, hrec] at hfil
  simp only [Except.ok.injEq] at hfil
  subst hfil
  rw [List.mem_filter, passesFilter]
  simp [Bool.and_eq_true, decide_eq_true_eq, and_assoc]

theorem C3_witness :
    recomputedRows catW [itemFull] = .ok [rowFull] ∧
    filteredRows catW [itemFull] = .ok [rowFull] ∧
    (rowFull ∈ [rowFull] ↔ (rowFull ∈ [rowFull] ∧ 15 ≤ rowFull.m2 ∧
      50 ≤ rowFull.price_per_m2_usd ∧ rowFull.price_per_m2_usd ≤ 15000)) := by
  have h1 : recomputedRows catW [itemFull] = .ok [rowFull] := by
    norm_num [recomputedRows, processedRows, exMapM, enrichItem, computePriceUsd,
      computePpm2Ds, computePtypeName, computeFacNames, cellOf, pyFloat, truthy,
      colsOf, getPenToUsdRate, catW, itemFull, recomputeRow, toNumeric, rowFull,
      mapFacilities, List.filterMap_cons, List.filterMap_nil]
  have h2 : filteredRows catW [itemFull] = .ok [rowFull] := by
    rw [filteredRows, h1]; decide
  exact ⟨h1, h2, C3_filter_exact catW [itemFull] [rowFull] [rowFull] h1 h2 rowFull⟩

/-- C4 counterexample: a non-empty raw set whose records all fail the
outlier filter yields the full report shape (with zero totals), not the
distinguished "no data" message the claim asserts. -/
theorem C4_counterexample :
    get_dashboard_metrics catW [itemLowPpm2] = .ok (.report emptyRep) ∧
    Output.report emptyRep ≠ Output.noData := by
  constructor
  · rw [get_dashboard_metrics, if_neg (by decide), filteredRows_itemLow]
    decide
  · decide

/-- C4 (amended): the "no data" payload is returned exactly when the raw
record set is empty; an empty post-filter set still yields the report
shape. -/
theorem C4_amended_no_data_iff_empty_raw (cat : Catalog) (items : List RawItem) :
    get_dashboard_metrics cat items = .ok .noData ↔ items = [] := by
  constructor
  · intro h
    by_contra hne
    rw [get_dashboard_metrics, if_neg hne] at h
    cases hf : filteredRows cat items with
    | error e => rw [hf] at h; cases h
    | ok rows =>
        rw [hf] at h
        cases ha : aggregateStage (colsOf items).neighborhood (colsOf items).bedrooms
            (colsOf items).bathrooms rows with
        | error e => simp only [ha] at h; cases h
        | ok rep => simp only [ha] at h; simp at h
  · intro h
    subst h
    rfl

/-- C5: aggregation over an empty filtered set succeeds with zero totals,
zero averages and empty breakdowns (both inside the pipeline with the
needed columns present, and for the aggregation stage in isolation). -/
theorem C5_empty_aggregation (cat : Catalog) (items : List RawItem)
    (hne : items ≠ []) (hnb : (colsOf items).neighborhood = true)
    (hbed : (colsOf items).bedrooms = true) (hbath : (colsOf items).bathrooms = true)
    (hfil : filteredRows cat items = .ok []) :
    get_dashboard_metrics cat items = .ok (.report emptyRep) ∧
    aggregateStage true true true [] = .ok emptyRep := by
  constructor
  · rw [get_dashboard_metrics, if_neg hne, hfil, hnb, hbed, hbath]
    rfl
  · rfl

theorem C5_witness :
    get_dashboard_metrics catW [itemLowPpm2] = .ok (.report emptyRep) ∧
    aggregateStage true true true [] = .ok emptyRep :=
  C5_empty_aggregation catW [itemLowPpm2] (by decide) (by decide) (by decide)
    (by decide) filteredRows_itemLow

/-
C1: sign of the enriched values.
-/

/-- A cell value that is non-negative wherever it is numeric. -/
def nonnegVal : PyVal → Bool
  | .nan => true
  | .num q => decide (0 ≤ q)
  | .pstr p _ =>
      match p with
      | none => true
      | some q => decide (0 ≤ q)

/-- A field whose value, if present and numeric, is non-negative. -/
def nonnegField : Option PyVal → Bool
  | none => true
  | some v => nonnegVal v

theorem pyFloat_ok_some_nonneg {v : PyVal} {q : ℚ}
    (h : pyFloat v = .ok (some q)) (hv : nonnegVal v = true) : 0 ≤ q := by
  cases v with
  | nan => simp [pyFloat] at h
  | num q0 =>
      simp only [pyFloat, Except.ok.injEq, Option.some.injEq] at h
      subst h
      simpa [nonnegVal] using hv
  | pstr p e =>
      cases p with
      | none => simp [pyFloat] at h
      | some q0 =>
          simp only [pyFloat, Except.ok.injEq, Option.some.injEq] at h
          subst h
          simpa [nonnegVal] using hv

theorem cellOf_some {hasCol : Bool} {f : Option PyVal} {v : PyVal}
    (h : cellOf hasCol f = some v) : f = some v ∨ v = .nan := by
  cases hasCol with
  | false => simp [cellOf] at h
  | true =>
      cases f with
      | none =>
          simp only [cellOf, Option.getD, if_true] at h
          exact Or.inr (Option.some.inj h).symm
      | some w =>
          simp only [cellOf, Option.getD, if_true] at h
          exact Or.inl (by rw [Option.some.inj h])

theorem computePriceUsd_nonneg {cols : Cols} {rate : ℚ} {it : RawItem} {p : ℚ}
    (hrate : 0 < rate) (hp : nonnegField it.price = true)
    (h : computePriceUsd cols rate it = .ok (some p)) : 0 ≤ p := by
  rw [computePriceUsd] at h
  have hval : ∀ v : PyVal, cellOf cols.price it.price = some v →
      nonnegVal v = true := by
    intro v hv
    rcases cellOf_some hv with hcase | hcase
    · rw [hcase] at hp; exact hp
    · rw [hcase]; rfl
  by_cases h6 : cellOf cols.currency_id it.currency_id = some (.num 6)
  · rw [if_pos h6] at h
    cases hc : cellOf cols.price it.price with
    | none => rw [hc] at h; cases h
    | some v =>
        rw [hc] at h
        cases hf : pyFloat v with
        | error e => simp only [hf] at h; cases h
        | ok po =>
            simp only [hf] at h
            rw [if_neg (ne_of_gt hrate)] at h
            cases po with
            | none => simp [Option.map] at h
            | some q =>
                simp only [Option.map, Except.ok.injEq, Option.some.injEq] at h
                subst h
                exact div_nonneg (pyFloat_ok_some_nonneg hf (hval v hc)) (le_of_lt hrate)
  · rw [if_neg h6] at h
    cases hc : cellOf cols.price it.price with
    | none =>
        rw [hc] at h
        simp only [Except.ok.injEq, Option.some.injEq] at h
        subst h
        exact le_refl 0
    | some v =>
        rw [hc] at h
        exact pyFloat_ok_some_nonneg h (hval v hc)

theorem toNumeric_nonneg {f : Option PyVal} {q : ℚ}
    (h : toNumeric f = some q) (hf : nonnegField f = true) : 0 ≤ q := by
  cases f with
  | none => cases h
  | some v =>
      cases v with
      | nan => cases h
      | num q0 =>
          simp only [toNumeric, Option.some.injEq] at h
          subst h
          simpa [nonnegField, nonnegVal] using hf
      | pstr p e =>
          cases p with
          | none => cases h
          | some q0 =>
              simp only [toNumeric, Option.some.injEq] at h
              subst h
              simpa [nonnegField, nonnegVal] using hf

/-- C1 (amended): whenever the PEN rate is positive and every record's
`price` and `m2` fields are non-negative wherever they are numeric, every
row surviving the handler's coercion block has `price_usd >= 0` and
`price_per_m2_usd >= 0`; non-finite division results are normalized to 0 by
construction (the recomputed column is a plain rational).  The
normalization does not cover *negative* values, and nothing constrains the
sign when an input price or area is negative (see the counterexample). -/
theorem C1_amended_nonneg (cat : Catalog) (items : List RawItem) (rows : List Row)
    (hrate : 0 < getPenToUsdRate cat.priceOptions)
    (hprice : ∀ it ∈ items, nonnegField it.price = true)
    (hm2 : ∀ it ∈ items, nonnegField it.m2 = true)
    (hrec : recomputedRows cat items = .ok rows) :
    ∀ r ∈ rows, 0 ≤ r.price_usd ∧ 0 ≤ r.price_per_m2_usd := by
  intro r hr
  rcases recomputedRows_ok hrec with ⟨es, hes, hm, hrows⟩
  subst hrows
  rcases List.mem_filterMap.mp hr with ⟨e, he, hre⟩
  rcases exMapM_ok_mem hes e he with ⟨it, hit, henr⟩
  rcases enrichItem_ok henr with ⟨hpu, hem2, _, _, _, _, _⟩
  rw [recomputeRow] at hre
  cases htn : toNumeric e.m2 with
  | none => rw [htn] at hre; cases hre
  | some m2q =>
      rw [htn] at hre
      cases hpue : e.price_usd with
      | none => rw [hpue] at hre; cases hre
      | some pu =>
          rw [hpue] at hre
          simp only [Option.some.injEq] at hre
          subst hre
          rw [hpue] at hpu
          have hpu0 : 0 ≤ pu := computePriceUsd_nonneg hrate (hprice it hit) hpu
          have hm20 : 0 ≤ m2q := by
            rw [hem2] at htn
            exact toNumeric_nonneg htn (hm2 it hit)
          refine ⟨hpu0, ?_⟩
          show 0 ≤ (if m2q = 0 then 0 else pu / m2q)
          by_cases hz : m2q = 0
          · rw [if_pos hz]
          · rw [if_neg hz]
            exact div_nonneg hpu0 hm20

/-- A record with a negative price (USD-denominated). -/
def itemNeg : RawItem :=
  ⟨3, some (.num (-370)), some (.num 1), some (.num 10), some "A", some (.num 1),
   some (.flist []), some (.num 1), some (.num 1)⟩

/-- The recomputed row of `itemNeg`: both derived prices are negative. -/
def rowNeg : Row :=
  ⟨3, 10, -370, -37, some "A", "Departamento", [], some (.num 1), some (.num 1)⟩

/-- C1 counterexample: a negative input price survives enrichment and the
recompute untouched: `price_usd = -370 < 0` and `price_per_m2_usd = -37 < 0`
are not normalized to 0. -/
theorem C1_counterexample :
    recomputedRows catW [itemNeg] = .ok [rowNeg] ∧
    rowNeg.price_usd < 0 ∧ rowNeg.price_per_m2_usd < 0 := by
  refine ⟨?_, by decide, by decide⟩
  norm_num [recomputedRows, processedRows, exMapM, enrichItem, computePriceUsd,
    computePpm2Ds, computePtypeName, computeFacNames, cellOf, pyFloat, truthy,
    colsOf, getPenToUsdRate, catW, itemNeg, recomputeRow, toNumeric, rowNeg,
    mapFacilities, List.filterMap_cons, List.filterMap_nil]

theorem C1_witness :
    (0 : ℚ) < getPenToUsdRate catW.priceOptions ∧
    (∀ r ∈ [rowFull], 0 ≤ r.price_usd ∧ 0 ≤ r.price_per_m2_usd) := by
  have h1 : recomputedRows catW [itemFull] = .ok [rowFull] := by
    norm_num [recomputedRows, processedRows, exMapM, enrichItem, computePriceUsd,
      computePpm2Ds, computePtypeName, computeFacNames, cellOf, pyFloat, truthy,
      colsOf, getPenToUsdRate, catW, itemFull, recomputeRow, toNumeric, rowFull,
      mapFacilities, List.filterMap_cons, List.filterMap_nil]
  exact ⟨by norm_num [getPenToUsdRate, catW],
    C1_amended_nonneg catW [itemFull] [rowFull]
      (by norm_num [getPenToUsdRate, catW]) (by decide) (by decide) h1⟩

/-
C2: the currency conversion rule and the PEN rate lookup.
-/

/-- C2 (amended): the rate is the `arbitraje` of the first `'PEN'` option
(default 3.7 when the option or its rate field is absent), and enrichment
divides a present numeric price by the rate in the PEN branch and passes it
through otherwise; an absent price yields `priceUsd = 0` only in the
non-PEN branch when no record of the batch has a price (so the column is
missing), while with the price column present an absent price yields an
undefined (`NaN`) `priceUsd` in both branches, and the record is later
dropped. -/
theorem C2_amended_price_rule (opts pre post : List CurrencyOption)
    (c : CurrencyOption) (cols : Cols) (rate p : ℚ) (it : RawItem) (pu : Option ℚ) :
    ((∀ c' ∈ opts, c'.iso_code ≠ some "PEN") → getPenToUsdRate opts = 3.7) ∧
    (c.iso_code = some "PEN" → (∀ c' ∈ pre, c'.iso_code ≠ some "PEN") →
      getPenToUsdRate (pre ++ c :: post) = c.arbitraje.getD 3.7) ∧
    (computePriceUsd cols rate it = .ok pu →
      ((cols.price = true → it.price = some (.num p) →
        ((cellOf cols.currency_id it.currency_id = some (.num 6) →
            pu = some (p / rate)) ∧
         (cellOf cols.currency_id it.currency_id ≠ some (.num 6) → pu = some p))) ∧
       (it.price = none →
        ((cols.price = false → pu = some 0) ∧ (cols.price = true → pu = none))))) := by
  refine ⟨?_, ?_, ?_⟩
  · intro hnone
    induction opts with
    | nil => rfl
    | cons d rest ih =>
        rw [getPenToUsdRate, if_neg (hnone d (List.mem_cons_self d rest))]
        exact ih (fun c' hc' => hnone c' (List.mem_cons_of_mem d hc'))
  · intro hc hpre
    induction pre with
    | nil => rw [List.nil_append, getPenToUsdRate, if_pos hc]
    | cons d t ih =>
        rw [List.cons_append, getPenToUsdRate,
          if_neg (hpre d (List.mem_cons_self d t))]
        exact ih (fun c' hc' => hpre c' (List.mem_cons_of_mem d hc'))
  · intro h
    constructor
    · intro hcol hP
      constructor
      · intro h6
        rw [computePriceUsd, if_pos h6, hP] at h
        rw [cellOf, if_pos hcol] at h
        simp only [Option.getD, pyFloat] at h
        by_cases hr0 : rate = 0
        · rw [if_pos hr0] at h; cases h
        · rw [if_neg hr0] at h
          simp only [Option.map, Except.ok.injEq] at h
          exact h.symm
      · intro h6
        rw [computePriceUsd, if_neg h6, hP] at h
        rw [cellOf, if_pos hcol] at h
        simp only [Option.getD, pyFloat, Except.ok.injEq] at h
        exact h.symm
    · intro hP
      constructor
      · intro hcol
        by_cases h6 : cellOf cols.currency_id it.currency_id = some (.num 6)
        · rw [computePriceUsd, if_pos h6, hP] at h
          rw [cellOf, if_neg (by rw [hcol]; exact Bool.false_ne_true)] at h
          cases h
        · rw [computePriceUsd, if_neg h6, hP] at h
          rw [cellOf, if_neg (by rw [hcol]; exact Bool.false_ne_true)] at h
          simp only [Except.ok.injEq] at h
          exact h.symm
      · intro hcol
        by_cases h6 : cellOf cols.currency_id it.currency_id = some (.num 6)
        · rw [computePriceUsd, if_pos h6, hP] at h
          rw [cellOf, if_pos hcol] at h
          simp only [Option.getD, pyFloat] at h
          by_cases hr0 : rate = 0
          · rw [if_pos hr0] at h; cases h
          · rw [if_neg hr0] at h
            simp only [Option.map, Except.ok.injEq] at h
            exact h.symm
        · rw [computePriceUsd, if_neg h6, hP] at h
          rw [cellOf, if_pos hcol] at h
          simp only [Option.getD, pyFloat, Except.ok.injEq] at h
          exact h.symm

/-- A PEN-denominated record with no price key. -/
def itemPenNoPrice : RawItem :=
  ⟨4, none, some (.num 6), some (.num 20), some "A", some (.num 1),
   some (.flist []), some (.num 1), some (.num 1)⟩

/-- The enriched row of `itemPenNoPrice` in a batch whose price column
exists: its `price_usd` is NaN, not 0. -/
def ePen : ERow :=
  ⟨4, none, none, some (.num 20), some "A", "Departamento", [],
   some (.num 1), some (.num 1)⟩

/-- The enriched row of `itemFull`. -/
def eFull : ERow :=
  ⟨2, some 100000, some 2000, some (.num 50), some "B", "Casa", [],
   some (.num 3), some (.num 2)⟩

/-- C2 counterexample: a PEN record with an absent price, in a batch where
another record has a price (so the column exists), gets `price_usd = NaN`
after enrichment — not the claimed default 0. -/
theorem C2_counterexample :
    processedRows catW [itemPenNoPrice, itemFull] = .ok [ePen, eFull] ∧
    ePen.price_usd = none ∧ ePen.price_usd ≠ some 0 := by
  refine ⟨?_, by decide, by decide⟩
  norm_num [processedRows, exMapM, enrichItem, computePriceUsd, computePpm2Ds,
    computePtypeName, computeFacNames, cellOf, pyFloat, truthy, colsOf,
    getPenToUsdRate, catW, itemPenNoPrice, itemFull, ePen, eFull, mapFacilities]

/-- A currency option that is not PEN. -/
def optUsd : CurrencyOption := ⟨some "USD", none⟩

/-- The PEN currency option of the metadata file. -/
def optPen : CurrencyOption := ⟨some "PEN", some (37/10)⟩

theorem C2_witness :
    getPenToUsdRate [optUsd] = 3.7 ∧
    getPenToUsdRate ([optUsd] ++ optPen :: []) = optPen.arbitraje.getD 3.7 ∧
    (some (100000 : ℚ) : Option ℚ) = some 100000 := by
  have h := C2_amended_price_rule [optUsd] [optUsd] [] optPen (colsOf [itemFull])
    (37/10) 100000 itemFull (some 100000)
  have hok : computePriceUsd (colsOf [itemFull]) (37/10) itemFull =
      .ok (some 100000) := by
    norm_num [computePriceUsd, cellOf, pyFloat, colsOf, itemFull]
  exact ⟨h.1 (by decide), h.2.1 (by decide) (by decide),
    ((h.2.2 hok).1 (by decide) (by decide)).2 (by decide)⟩

/-
C9: recovery versus propagation of numeric-coercion anomalies.
-/

/-- A record whose `m2` is a non-empty string that does not parse as a
number: `float(row['m2'])` raises ValueError during enrichment. -/
def itemBadM2 : RawItem :=
  ⟨5, some (.num 100), some (.num 1), some (.pstr none false), some "A",
   some (.num 1), some (.flist []), some (.num 1), some (.num 1)⟩

/-- C9 counterexample: an unparseable `m2` string is not recovered locally;
the enrichment raises and the whole run aborts with the error payload. -/
theorem C9_counterexample :
    get_dashboard_metrics catW [itemBadM2] = .error .valueError := by decide

/-- C9 (amended): an anomaly that surfaces as an absent/NaN value is
recovered locally — the affected record is dropped by the coercion block
and the rest of the pipeline is unchanged — while a string field that fails
numeric parsing raises an exception that aborts the run with the error
payload (witnessed by the unparseable-`m2` record). -/
theorem C9_amended_anomaly_handling (cat : Catalog) (pre post : List RawItem)
    (bad : RawItem) (e : ERow)
    (hne : pre ++ post ≠ [])
    (hcols : colsOf (pre ++ bad :: post) = colsOf (pre ++ post))
    (henr : enrichItem (colsOf (pre ++ post)) cat (getPenToUsdRate cat.priceOptions)
      bad = .ok e)
    (hdrop : recomputeRow e = none) :
    get_dashboard_metrics cat (pre ++ bad :: post) =
      get_dashboard_metrics cat (pre ++ post) ∧
    get_dashboard_metrics catW [itemBadM2] = .error .valueError := by
  refine ⟨?_, by decide⟩
  have hne1 : pre ++ bad :: post ≠ [] := by simp
  have hRR : recomputedRows cat (pre ++ bad :: post) =
      recomputedRows cat (pre ++ post) := by
    rw [recomputedRows, recomputedRows, processedRows, processedRows, hcols,
      exMapM_append, exMapM_append]
    cases hpre : exMapM (enrichItem (colsOf (pre ++ post)) cat
        (getPenToUsdRate cat.priceOptions)) pre with
    | error er => rfl
    | ok bs1 =>
        rw [exMapM, henr]
        cases hpost : exMapM (enrichItem (colsOf (pre ++ post)) cat
            (getPenToUsdRate cat.priceOptions)) post with
        | error er => rfl
        | ok bs2 =>
            show (if (colsOf (pre ++ post)).m2 = true then _ else _) = _
            cases hm2 : (colsOf (pre ++ post)).m2 with
            | false => rfl
            | true =>
                simp only [if_true]
                rw [List.filterMap_append, List.filterMap_append,
                  List.filterMap_cons, hdrop]
  rw [get_dashboard_metrics, get_dashboard_metrics, if_neg hne1, if_neg hne,
    filteredRows, filteredRows, hRR, hcols]

/-- A record whose `m2` is an explicit NaN: coerced to NaN and dropped by
the handler's `dropna`. -/
def itemNanM2 : RawItem :=
  ⟨6, some (.num 100), some (.num 1), some .nan, some "A", some (.num 1),
   some (.flist []), some (.num 1), some (.num 1)⟩

/-- The enriched row of `itemNanM2` (service-side division short-circuits
to 0 because `NaN > 0` is false). -/
def eNan : ERow :=
  ⟨6, some 100, some 0, some .nan, some "A", "Departamento", [],
   some (.num 1), some (.num 1)⟩

theorem C9_witness :
    get_dashboard_metrics catW ([itemFull] ++ itemNanM2 :: []) =
      get_dashboard_metrics catW ([itemFull] ++ []) ∧
    get_dashboard_metrics catW [itemBadM2] = .error .valueError :=
  C9_amended_anomaly_handling catW [itemFull] [] itemNanM2 eNan
    (by decide) (by decide) (by decide) (by decide)

/-
C10: absent or non-list facilities.
-/

/-- A record with no `facilities` key at all (alone in the batch, so the
column is missing from the frame). -/
def itemNoFac : RawItem :=
  ⟨6, some (.num 100000), some (.num 1), some (.num 50), some "B",
   some (.num 2), none, some (.num 3), some (.num 2)⟩

/-- C10 counterexample: when no record of the batch has a `facilities` key
the column is absent, and line 87 raises KeyError instead of producing an
empty facility list; the run aborts with the error payload. -/
theorem C10_counterexample :
    get_dashboard_metrics catW [itemNoFac] = .error .keyError := by decide

/-- C10 (amended): provided the `facilities` column exists in the batch, a
record whose own `facilities` value is absent or not a list enriches to an
empty `facilities_names` with no error, and such a record contributes
nothing to the flattened facility multiset. -/
theorem C10_amended_facilities_empty (cols : Cols) (cat : Catalog) (rate : ℚ)
    (it : RawItem) (e : ERow)
    (hcol : cols.facilities = true)
    (hfac : it.facilities = none ∨ it.facilities = some .nonlist)
    (henr : enrichItem cols cat rate it = .ok e) :
    e.facilities_names = [] ∧
    (∀ (xs ys : List Row) (r : Row), r.facilities_names = [] →
      allFacilities (xs ++ r :: ys) = allFacilities (xs ++ ys)) := by
  constructor
  · rcases enrichItem_ok henr with ⟨_, _, _, _, _, _, hfn⟩
    rw [computeFacNames, if_pos hcol] at hfn
    simp only [Except.ok.injEq] at hfn
    rcases hfac with hf | hf <;> rw [hf] at hfn <;> exact hfn.symm
  · intro xs ys r hr
    simp [allFacilities, hr]

/-- A record with no `facilities` key inside a batch whose other record has
one. -/
def itemNoList : RawItem :=
  ⟨7, some (.num 100), some (.num 1), some (.num 20), some "A", some (.num 1),
   none, some (.num 1), some (.num 1)⟩

/-- The enriched row of `itemNoList` in the batch `[itemNoList, itemFull]`. -/
def eNoList : ERow :=
  ⟨7, some 100, some 5, some (.num 20), some "A", "Departamento", [],
   some (.num 1), some (.num 1)⟩

theorem C10_witness :
    eNoList.facilities_names = [] ∧
    (∀ (xs ys : List Row) (r : Row), r.facilities_names = [] →
      allFacilities (xs ++ r :: ys) = allFacilities (xs ++ ys)) := by
  have henr : enrichItem (colsOf [itemNoList, itemFull]) catW
      (getPenToUsdRate catW.priceOptions) itemNoList = .ok eNoList := by
    norm_num [enrichItem, computePriceUsd, computePpm2Ds, computePtypeName,
      computeFacNames, cellOf, pyFloat, truthy, colsOf, getPenToUsdRate, catW,
      itemNoList, itemFull, eNoList, mapFacilities]
  exact C10_amended_facilities_empty (colsOf [itemNoList, itemFull]) catW
    (getPenToUsdRate catW.priceOptions) itemNoList eNoList (by decide)
    (Or.inl rfl) henr

/-
C8: the district rankings.
-/

/-- C8: the district rankings group filtered records by neighborhood,
take the mean `price_per_m2_usd` per group, and sort descending; the
expensive list is the first five of that sequence, the affordable list is
the last five re-sorted ascending, both lists are correctly sorted, with
at most five groups both contain every group, the `pricePerM2Usd > 0`
restriction is vacuous on filter-postcondition rows, and with at most five
groups (and at least one) the two lists overlap — no deduplication. -/
theorem C8_district_rankings (rows : List Row) :
    topExpensive rows = (districtRanking rows).take 5 ∧
    topAffordable rows = List.insertionSort (fun a b => a.2 ≤ b.2)
      ((districtRanking rows).drop ((districtRanking rows).length - 5)) ∧
    (districtRanking rows).Sorted (fun a b => b.2 ≤ a.2) ∧
    (topExpensive rows).Sorted (fun a b => b.2 ≤ a.2) ∧
    (topAffordable rows).Sorted (fun a b => a.2 ≤ b.2) ∧
    (∀ p ∈ districtRanking rows, p.1 ∈ neighborhoods rows ∧
      p.2 = mean0 (groupPpm2 rows p.1)) ∧
    (∀ k ∈ neighborhoods rows, (k, mean0 (groupPpm2 rows k)) ∈ districtRanking rows) ∧
    ((districtRanking rows).length ≤ 5 →
      topExpensive rows = districtRanking rows ∧
      (topAffordable rows).Perm (districtRanking rows)) ∧
    ((∀ r ∈ rows, 50 ≤ r.price_per_m2_usd) →
      rows.filter (fun r => decide (0 < r.price_per_m2_usd)) = rows) ∧
    ((districtRanking rows).length ≤ 5 → districtRanking rows ≠ [] →
      ∃ p, p ∈ topExpensive rows ∧ p ∈ topAffordable rows) := by
  haveI htot : IsTotal (String × ℚ) (fun a b => b.2 ≤ a.2) :=
    ⟨fun a b => le_total b.2 a.2⟩
  haveI htr : IsTrans (String × ℚ) (fun a b => b.2 ≤ a.2) :=
    ⟨fun a b c h1 h2 => le_trans h2 h1⟩
  haveI htot2 : IsTotal (String × ℚ) (fun a b => a.2 ≤ b.2) :=
    ⟨fun a b => le_total a.2 b.2⟩
  haveI htr2 : IsTrans (String × ℚ) (fun a b => a.2 ≤ b.2) :=
    ⟨fun a b c h1 h2 => le_trans h1 h2⟩
  have hsorted : (districtRanking rows).Sorted (fun a b => b.2 ≤ a.2) :=
    List.sorted_insertionSort _ _
  have hexp : topExpensive rows = (districtRanking rows).take 5 := rfl
  have haff : topAffordable rows = List.insertionSort (fun a b => a.2 ≤ b.2)
      ((districtRanking rows).drop ((districtRanking rows).length - 5)) := rfl
  refine ⟨hexp, haff, hsorted, ?_, ?_, ?_, ?_, ?_, ?_, ?_⟩
  · rw [hexp]
    exact hsorted.sublist (List.take_sublist 5 _)
  · rw [haff]
    exact List.sorted_insertionSort _ _
  · intro p hp
    rw [districtRanking] at hp
    rcases List.mem_map.mp ((List.mem_insertionSort _).mp hp) with ⟨k, hk, hpk⟩
    rw [← hpk]
    exact ⟨hk, rfl⟩
  · intro k hk
    rw [districtRanking]
    exact (List.mem_insertionSort _).mpr (List.mem_map_of_mem _ hk)
  · intro hlen
    constructor
    · rw [hexp]
      exact List.take_of_length_le hlen
    · rw [haff, Nat.sub_eq_zero_of_le hlen, List.drop_zero]
      exact List.perm_insertionSort _ _
  · intro hpos
    refine List.filter_eq_self.mpr ?_
    intro r hr
    exact decide_eq_true (lt_of_lt_of_le (by norm_num) (hpos r hr))
  · intro hlen hne
    rcases List.exists_mem_of_ne_nil _ hne with ⟨p, hp⟩
    refine ⟨p, ?_, ?_⟩
    · rw [hexp, List.take_of_length_le hlen]
      exact hp
    · rw [haff, Nat.sub_eq_zero_of_le hlen, List.drop_zero]
      exact (List.perm_insertionSort _ _).mem_iff.mpr hp

theorem C8_witness :
    (topExpensive [rowFull] = districtRanking [rowFull] ∧
      (topAffordable [rowFull]).Perm (districtRanking [rowFull])) ∧
    ([rowFull].filter (fun r => decide (0 < r.price_per_m2_usd)) = [rowFull]) ∧
    (∃ p, p ∈ topExpensive [rowFull] ∧ p ∈ topAffordable [rowFull]) := by
  have h := C8_district_rankings [rowFull]
  have hrank : districtRanking [rowFull] = [("B", mean0 (groupPpm2 [rowFull] "B"))] := by
    simp [districtRanking, neighborhoods, sortedKeysStr, rowFull,
      List.dedup, List.pwFilter, List.insertionSort, List.orderedInsert]
  have hlen : (districtRanking [rowFull]).length ≤ 5 := by rw [hrank]; norm_num
  have hne : districtRanking [rowFull] ≠ [] := by rw [hrank]; simp
  exact ⟨h.2.2.2.2.2.2.2.1 hlen, h.2.2.2.2.2.2.2.2.1 (by decide),
    h.2.2.2.2.2.2.2.2.2 hlen hne⟩

/-
C7: the facility-frequency analysis.
-/

theorem filter_snd_orderedInsert (a : String × Nat) (s : List (String × Nat)) (n : Nat) :
    (List.orderedInsert (fun x y => y.2 ≤ x.2) a s).filter (fun p => decide (p.2 = n))
      = if a.2 = n then a :: s.filter (fun p => decide (p.2 = n))
        else s.filter (fun p => decide (p.2 = n)) := by
  induction s with
  | nil =>
      rw [List.orderedInsert_nil]
      by_cases h : a.2 = n
      · rw [if_pos h]
        simp [List.filter_cons, h]
      · rw [if_neg h]
        simp [List.filter_cons, h]
  | cons b t ih =>
      rw [List.orderedInsert]
      by_cases hr : b.2 ≤ a.2
      · rw [if_pos hr]
        by_cases h : a.2 = n
        · rw [if_pos h]
          simp [List.filter_cons, h]
        · rw [if_neg h]
          simp [List.filter_cons, h]
      · rw [if_neg hr]
        have hab : a.2 < b.2 := Nat.lt_of_not_le hr
        by_cases h : a.2 = n
        · have hbn : ¬ b.2 = n := by omega
          rw [if_pos h]
          simp [List.filter_cons, hbn, h, ih]
        · rw [if_neg h]
          by_cases hbn : b.2 = n
          · simp [List.filter_cons, hbn, h, ih]
          · simp [List.filter_cons, hbn, h, ih]

theorem filter_snd_insertionSort (l : List (String × Nat)) (n : Nat) :
    (List.insertionSort (fun x y => y.2 ≤ x.2) l).filter (fun p => decide (p.2 = n))
      = l.filter (fun p => decide (p.2 = n)) := by
  induction l with
  | nil => rfl
  | cons a t ih =>
      rw [List.insertionSort, filter_snd_orderedInsert, ih, List.filter_cons]
      by_cases h : a.2 = n
      · simp [h]
      · simp [h]

theorem bump_keys_mem (acc : List (String × Nat)) (s : String)
    (h : acc.any (fun p => decide (p.1 = s)) = true) :
    (bump acc s).map Prod.fst = acc.map Prod.fst := by
  rw [bump, if_pos h, List.map_map]
  refine List.map_congr_left ?_
  intro p hp
  by_cases hps : p.1 = s <;> simp [Function.comp, hps]

theorem bump_keys_new (acc : List (String × Nat)) (s : String)
    (h : acc.any (fun p => decide (p.1 = s)) = false) :
    (bump acc s).map Prod.fst = acc.map Prod.fst ++ [s] := by
  rw [bump, if_neg (by rw [h]; exact Bool.false_ne_true), List.map_append]
  rfl

theorem not_mem_keys_of_any_false {acc : List (String × Nat)} {s : String}
    (h : acc.any (fun p => decide (p.1 = s)) = false) :
    s ∉ acc.map Prod.fst := by
  intro hc
  rcases List.mem_map.mp hc with ⟨p, hp, hps⟩
  have : acc.any (fun p => decide (p.1 = s)) = true :=
    List.any_eq_true.mpr ⟨p, hp, by simp [hps]⟩
  rw [h] at this
  cases this

theorem mem_keys_of_any_true {acc : List (String × Nat)} {s : String}
    (h : acc.any (fun p => decide (p.1 = s)) = true) :
    s ∈ acc.map Prod.fst := by
  rcases List.any_eq_true.mp h with ⟨p, hp, hps⟩
  simp only [decide_eq_true_eq] at hps
  exact hps ▸ List.mem_map_of_mem Prod.fst hp

theorem counter_foldl_inv :
    ∀ (l : List String) (acc : List (String × Nat)) (pre : List String),
    (acc.map Prod.fst).Nodup →
    (∀ s, s ∈ acc.map Prod.fst ↔ s ∈ pre) →
    (∀ p ∈ acc, p.2 = pre.count p.1) →
    ((l.foldl bump acc).map Prod.fst).Nodup ∧
    (∀ s, s ∈ (l.foldl bump acc).map Prod.fst ↔ s ∈ pre ++ l) ∧
    (∀ p ∈ l.foldl bump acc, p.2 = (pre ++ l).count p.1) := by
  intro l
  induction l with
  | nil =>
      intro acc pre h1 h2 h3
      simp only [List.foldl_nil, List.append_nil]
      exact ⟨h1, h2, h3⟩
  | cons s t ih =>
      intro acc pre h1 h2 h3
      rw [List.foldl_cons, show pre ++ s :: t = (pre ++ [s]) ++ t by simp]
      refine ih (bump acc s) (pre ++ [s]) ?_ ?_ ?_
      · cases hmem : acc.any (fun p => decide (p.1 = s)) with
        | true => rw [bump_keys_mem acc s hmem]; exact h1
        | false =>
            rw [bump_keys_new acc s hmem]
            have hs := not_mem_keys_of_any_false hmem
            simp [List.nodup_append, h1, hs]
      · intro x
        cases hmem : acc.any (fun p => decide (p.1 = s)) with
        | true =>
            rw [bump_keys_mem acc s hmem, h2 x, List.mem_append, List.mem_singleton]
            constructor
            · intro hx; exact Or.inl hx
            · rintro (hx | hx)
              · exact hx
              · subst hx
                exact (h2 x).mp (mem_keys_of_any_true hmem)
        | false =>
            rw [bump_keys_new acc s hmem, List.mem_append, List.mem_singleton,
              List.mem_append, List.mem_singleton, h2 x]
      · intro p hp
        cases hmem : acc.any (fun p => decide (p.1 = s)) with
        | true =>
            rw [bump, if_pos hmem] at hp
            rcases List.mem_map.mp hp with ⟨q, hq, hqp⟩
            by_cases hqs : q.1 = s
            · rw [if_pos hqs] at hqp
              rw [← hqp]
              simp [List.count_append, h3 q hq, hqs]
            · rw [if_neg hqs] at hqp
              rw [← hqp, List.count_append, h3 q hq]
              have : List.count q.1 [s] = 0 := by
                simp [List.count_singleton', hqs]
              omega
        | false =>
            rw [bump, if_neg (by rw [hmem]; exact Bool.false_ne_true)] at hp
            rcases List.mem_append.mp hp with hq | hq
            · have hne : p.1 ≠ s := by
                intro hc
                exact not_mem_keys_of_any_false hmem
                  (hc ▸ List.mem_map_of_mem Prod.fst hq)
              rw [List.count_append, h3 p hq]
              have : List.count p.1 [s] = 0 := by
                simp [List.count_singleton', hne]
              omega
            · rw [List.mem_singleton] at hq
              subst hq
              have hnp : ¬ s ∈ pre := fun hc =>
                not_mem_keys_of_any_false hmem ((h2 s).mpr hc)
              simp [List.count_append, List.count_eq_zero.mpr hnp,
                List.count_singleton]

theorem counterOf_spec (l : List String) :
    ((counterOf l).map Prod.fst).Nodup ∧
    (∀ s, s ∈ (counterOf l).map Prod.fst ↔ s ∈ l) ∧
    (∀ p ∈ counterOf l, p.2 = l.count p.1) := by
  have h := counter_foldl_inv l [] [] (by simp) (by simp) (by simp)
  simpa [counterOf] using h

theorem counterOf_mem_iff (l : List String) (s : String) (n : Nat) :
    (s, n) ∈ counterOf l ↔ s ∈ l ∧ n = l.count s := by
  rcases counterOf_spec l with ⟨hnd, hmem, hcnt⟩
  constructor
  · intro h
    exact ⟨(hmem s).mp (List.mem_map_of_mem Prod.fst h), hcnt _ h⟩
  · rintro ⟨hs, hn⟩
    rcases List.mem_map.mp ((hmem s).mpr hs) with ⟨p, hp, hps⟩
    have hp2 : p.2 = l.count s := hps ▸ hcnt p hp
    have : p = (s, n) := by
      cases p
      simp only at hps hp2
      rw [hps, hp2, hn]
    exact this ▸ hp

theorem counterOf_nodup (l : List String) : (counterOf l).Nodup :=
  List.Nodup.of_map Prod.fst (counterOf_spec l).1

theorem counterOf_perm {l l' : List String} (h : l.Perm l') :
    (counterOf l).Perm (counterOf l') := by
  refine (List.perm_ext_iff_of_nodup (counterOf_nodup l) (counterOf_nodup l')).mpr ?_
  intro p
  cases p with
  | mk s n => rw [counterOf_mem_iff, counterOf_mem_iff, h.mem_iff, h.count_eq]

/-- The distinct elements of a list in order of first occurrence. -/
def firstOccs : List String → List String
  | [] => []
  | s :: t => s :: firstOccs (t.filter (fun x => decide (¬ x = s)))
termination_by l => l.length
decreasing_by
  simp only [List.length_cons]
  exact Nat.lt_succ_of_le (List.length_filter_le _ t)

theorem foldl_bump_keys : ∀ (l : List String) (acc : List (String × Nat)),
    (l.foldl bump acc).map Prod.fst
      = acc.map Prod.fst
        ++ firstOccs (l.filter (fun x => decide (¬ x ∈ acc.map Prod.fst))) := by
  intro l
  induction l with
  | nil => intro acc; simp [firstOccs]
  | cons s t ih =>
      intro acc
      rw [List.foldl_cons, List.filter_cons]
      cases hmem : acc.any (fun p => decide (p.1 = s)) with
      | true =>
          have hs : s ∈ acc.map Prod.fst := mem_keys_of_any_true hmem
          rw [if_neg (by simp [hs])]
          rw [ih (bump acc s), bump_keys_mem acc s hmem]
      | false =>
          have hs : s ∉ acc.map Prod.fst := not_mem_keys_of_any_false hmem
          rw [if_pos (by simp [hs])]
          rw [ih (bump acc s), bump_keys_new acc s hmem, firstOccs]
          rw [List.append_assoc]
          congr 1
          rw [List.singleton_append]
          congr 1
          rw [List.filter_filter]
          congr 1
          refine List.filter_congr ?_
          intro x hx
          by_cases h1 : x = s <;> by_cases h2 : x ∈ acc.map Prod.fst <;>
            simp [h1, h2, List.mem_append]

theorem counterOf_keys (l : List String) :
    (counterOf l).map Prod.fst = firstOccs l := by
  have h := foldl_bump_keys l []
  simpa [counterOf] using h

/-- C7 (amended): the facilities analysis returns the most frequent names
of the flattened multiset with their exact counts, sorted descending, at
most ten of them, every omitted name has a count no larger than any
returned one, ties keep the counter's first-encounter order (the stable
sort does not reorder equal counts, and the counter's key order is the
first-occurrence order of the flattened sequence), and the returned set of
(name, count) pairs is reorder-invariant provided at most ten distinct
names occur — with more than ten distinct names a tie at the cutoff can
change which names are returned (see the counterexample). -/
theorem C7_amended_facility_frequency (rows rows' : List Row) :
    (∀ p ∈ facilitiesAnalysis rows, p.1 ∈ allFacilities rows ∧
      p.2 = (allFacilities rows).count p.1) ∧
    (facilitiesAnalysis rows).length
      = min 10 (counterOf (allFacilities rows)).length ∧
    (facilitiesAnalysis rows).Sorted (fun a b => b.2 ≤ a.2) ∧
    (∀ s ∈ allFacilities rows, s ∉ (facilitiesAnalysis rows).map Prod.fst →
      ∀ p ∈ facilitiesAnalysis rows, (allFacilities rows).count s ≤ p.2) ∧
    (∀ n : Nat, (List.insertionSort (fun a b => b.2 ≤ a.2)
        (counterOf (allFacilities rows))).filter (fun p => decide (p.2 = n))
      = (counterOf (allFacilities rows)).filter (fun p => decide (p.2 = n))) ∧
    (counterOf (allFacilities rows)).map Prod.fst = firstOccs (allFacilities rows) ∧
    ((allFacilities rows).Perm (allFacilities rows') →
      (counterOf (allFacilities rows)).length ≤ 10 →
      (facilitiesAnalysis rows).toFinset = (facilitiesAnalysis rows').toFinset) := by
  haveI htot : IsTotal (String × Nat) (fun a b => b.2 ≤ a.2) :=
    ⟨fun a b => Nat.le_total b.2 a.2⟩
  haveI htr : IsTrans (String × Nat) (fun a b => b.2 ≤ a.2) :=
    ⟨fun a b c h1 h2 => Nat.le_trans h2 h1⟩
  have hSperm : ∀ (l : List String),
      (List.insertionSort (fun a b => b.2 ≤ a.2) (counterOf l)).Perm (counterOf l) :=
    fun l => List.perm_insertionSort _ _
  have hget : facilitiesAnalysis rows = (List.insertionSort (fun a b => b.2 ≤ a.2)
      (counterOf (allFacilities rows))).take 10 := rfl
  have hsortedS : (List.insertionSort (fun a b => b.2 ≤ a.2)
      (counterOf (allFacilities rows))).Sorted (fun a b => b.2 ≤ a.2) :=
    List.sorted_insertionSort _ _
  refine ⟨?_, ?_, ?_, ?_, ?_, ?_, ?_⟩
  · intro p hp
    have hp' : p ∈ (List.insertionSort (fun a b => b.2 ≤ a.2)
        (counterOf (allFacilities rows))).take 10 := by
      rw [← hget]; exact hp
    have hpc : p ∈ counterOf (allFacilities rows) :=
      (List.mem_insertionSort _).mp ((List.take_sublist 10 _).subset hp')
    cases p with
    | mk s n => exact (counterOf_mem_iff _ s n).mp hpc
  · rw [hget, List.length_take, (hSperm _).length_eq]
  · rw [hget]
    exact hsortedS.sublist (List.take_sublist 10 _)
  · intro s hs hnot p hp
    have hq : (s, (allFacilities rows).count s) ∈ counterOf (allFacilities rows) :=
      (counterOf_mem_iff _ _ _).mpr ⟨hs, rfl⟩
    have hqS : (s, (allFacilities rows).count s) ∈ List.insertionSort
        (fun a b => b.2 ≤ a.2) (counterOf (allFacilities rows)) :=
      (List.mem_insertionSort _).mpr hq
    have hsplit := List.take_append_drop 10 (List.insertionSort (fun a b => b.2 ≤ a.2)
      (counterOf (allFacilities rows)))
    have hqd : (s, (allFacilities rows).count s) ∈ (List.insertionSort
        (fun a b => b.2 ≤ a.2) (counterOf (allFacilities rows))).drop 10 := by
      rcases List.mem_append.mp (by rw [hsplit]; exact hqS) with hq1 | hq2
      · exact absurd (by rw [hget]; exact List.mem_map_of_mem Prod.fst hq1) hnot
      · exact hq2
    have hp' : p ∈ (List.insertionSort (fun a b => b.2 ≤ a.2)
        (counterOf (allFacilities rows))).take 10 := by
      rw [← hget]; exact hp
    have hpair := (List.pairwise_append.mp (by rw [hsplit]; exact hsortedS)).2.2
    exact hpair p hp' _ hqd
  · intro n
    exact filter_snd_insertionSort _ n
  · exact counterOf_keys _
  · intro hperm hlen
    have hc := counterOf_perm hperm
    have hS : (List.insertionSort (fun a b => b.2 ≤ a.2)
        (counterOf (allFacilities rows))).Perm
        (List.insertionSort (fun a b => b.2 ≤ a.2)
          (counterOf (allFacilities rows'))) :=
      ((hSperm _).trans hc).trans (hSperm _).symm
    have hlen1 : (List.insertionSort (fun a b => b.2 ≤ a.2)
        (counterOf (allFacilities rows))).length ≤ 10 := by
      rw [(hSperm _).length_eq]; exact hlen
    have hlen2 : (List.insertionSort (fun a b => b.2 ≤ a.2)
        (counterOf (allFacilities rows'))).length ≤ 10 := by
      rw [← hS.length_eq]; exact hlen1
    show (mostCommon 10 (allFacilities rows)).toFinset
      = (mostCommon 10 (allFacilities rows')).toFinset
    rw [mostCommon, mostCommon, List.take_of_length_le hlen1,
      List.take_of_length_le hlen2]
    exact List.toFinset_eq_of_perm _ _ hS

/-- A filtered row carrying only a facility-name list (other fields are
arbitrary concrete values). -/
def rowFac (l : List String) : Row :=
  ⟨0, 20, 1000, 50, some "A", "Casa", l, none, none⟩

/-- Eleven distinct facilities, each occurring once. -/
def rows11a : List Row := [rowFac ["a","b","c","d","e","f","g","h","i","j","k"]]

/-- The same multiset of facilities in reverse order. -/
def rows11b : List Row := [rowFac ["k","j","i","h","g","f","e","d","c","b","a"]]

/-- C7 counterexample: two inputs with the same facility multiset but
different order return different sets of (name, count) pairs, because the
top-10 cutoff lands inside an 11-way tie and keeps the first ten by
occurrence order. -/
theorem C7_counterexample :
    (allFacilities rows11a).Perm (allFacilities rows11b) ∧
    (facilitiesAnalysis rows11a).toFinset ≠ (facilitiesAnalysis rows11b).toFinset := by
  constructor <;> decide

theorem C7_witness :
    (facilitiesAnalysis [rowFac ["x", "y"]]).toFinset =
      (facilitiesAnalysis [rowFac ["y", "x"]]).toFinset :=
  (C7_amended_facility_frequency [rowFac ["x", "y"]] [rowFac ["y", "x"]]).2.2.2.2.2.2
    (by decide) (by decide)
